import Mathlib

set_option maxRecDepth 10000

/-!
Verification of the content-hash library (`v1/hash.go`).

The Go source is shallowly embedded below.  Go strings are modelled as
`List Char`, Go bytes as `Nat` (values `< 256` where they arise from real
byte data), and Go `(value, error)` returns as `Except`/`Option` results.
The formatted error messages of the source are modelled as structured error
constructors carrying exactly the data the corresponding format verb
receives.
-/

namespace V1

/-! ## Definitions: the embedded program -/

/-- Equality of `Except` results is decidable when it is on both sides. -/
instance {ε α : Type} [DecidableEq ε] [DecidableEq α] : DecidableEq (Except ε α) := fun
  | .error e, .error f =>
    if h : e = f then .isTrue (by rw [h]) else .isFalse (by intro hh; cases hh; exact h rfl)
  | .ok x, .ok y =>
    if h : x = y then .isTrue (by rw [h]) else .isFalse (by intro hh; cases hh; exact h rfl)
  | .error _, .ok _ => .isFalse (by intro hh; cases hh)
  | .ok _, .error _ => .isFalse (by intro hh; cases hh)

/-- Named character constants, used to keep quoting characters readable. -/
def dquote : Char := Char.ofNat 34

/-- The single-quote character. -/
def squote : Char := Char.ofNat 39

/-- The backslash character. -/
def bslash : Char := Char.ofNat 92

/-- The backquote character. -/
def bquote : Char := Char.ofNat 96

/-- The cutset `"0123456789abcdef"` used by `Hash.parse`'s call to
`strings.TrimLeft`. -/
def hexChars : List Char := "0123456789abcdef".toList

/-- Embeds the Go struct `Hash` (v1/hash.go): `algorithm` and `hex` fields. -/
structure Hash where
  algorithm : List Char
  hex : List Char
deriving DecidableEq

/-- Structured model of the errors `Hash.parse` builds with `fmt.Errorf`;
each constructor carries the datum the corresponding format verb is given. -/
inductive ParseError where
  /-- `"too many parts in hash: %s"` with the whole unquoted input. -/
  | tooManyParts (s : List Char)
  /-- `"found non-hex character in hash: %c"` with `rest[0]`. -/
  | nonHexChar (c : Char)
  /-- `"wrong number of hex digits for sha256: %s"` with `parts[1]`. -/
  | wrongLength (hexPart : List Char)
  /-- `"unsupported hash type: %s"` with `parts[0]`. -/
  | unsupportedAlgorithm (algo : List Char)
deriving DecidableEq

/-- The spec's error taxonomy groups the three format/length failures of
parsing as `InvalidFormat` and the unknown-algorithm failure as
`UnsupportedAlgorithm`. -/
def ParseError.isInvalidFormat : ParseError → Bool
  | .tooManyParts _ => true
  | .nonHexChar _ => true
  | .wrongLength _ => true
  | .unsupportedAlgorithm _ => false

/-- The character a parse error's message singles out with a `%c` verb,
if any. -/
def ParseError.identifiedChar : ParseError → Option Char
  | .nonHexChar c => some c
  | _ => none

/-- Embeds `strings.Split(s, ":")` for the one-character separator used by
`Hash.parse`: splitting the empty string yields one empty part, and every
colon starts a new part. -/
def splitOnColon : List Char → List (List Char)
  | [] => [[]]
  | c :: rest =>
    if c = ':' then [] :: splitOnColon rest
    else
      match splitOnColon rest with
      | [] => [[c]]
      | p :: ps => (c :: p) :: ps

/-- Embeds `func (h *Hash) parse(unquoted string) error` (v1/hash.go):
split on `:` into exactly two parts, trim leading hex characters from the
second part and reject a non-empty remainder, then switch on the algorithm
name, demanding 64 hex digits for `sha256`. -/
def parse (unquoted : List Char) : Except ParseError Hash :=
  match splitOnColon unquoted with
  | [algo, hexPart] =>
    match hexPart.dropWhile (fun c => decide (c ∈ hexChars)) with
    | [] =>
      if algo = "sha256".toList then
        if hexPart.length = 64 then .ok ⟨algo, hexPart⟩
        else .error (.wrongLength hexPart)
      else .error (.unsupportedAlgorithm algo)
    | c :: _ => .error (.nonHexChar c)
  | _ => .error (.tooManyParts unquoted)

/-- Embeds `func NewHash(s string) (Hash, error)`: on failure the zero
value `Hash{}` is returned together with the error. -/
def NewHash (s : List Char) : Hash × Option ParseError :=
  match parse s with
  | .ok h => (h, none)
  | .error e => (⟨[], []⟩, some e)

/-- Embeds `func (h Hash) String() string`, i.e.
`fmt.Sprintf("%s:%s", h.Algorithm(), h.Hex())`. -/
def hashString (h : Hash) : List Char := h.algorithm ++ ':' :: h.hex

/-- The data-model invariants the spec states for a live `Hash`:
non-empty supported algorithm, all-hex digest characters, and a 64-character
digest when the algorithm is `sha256`. -/
def hashInvariant (h : Hash) : Prop :=
  h.algorithm ≠ [] ∧ h.algorithm = "sha256".toList ∧
    (∀ c ∈ h.hex, c ∈ hexChars) ∧
    (h.algorithm = "sha256".toList → h.hex.length = 64)

instance (h : Hash) : Decidable (hashInvariant h) := by
  unfold hashInvariant; infer_instance

/-- Tells whether a parse result is a failure with the unsupported-algorithm
error. -/
def resultIsUnsupported : Except ParseError Hash → Bool
  | .error (.unsupportedAlgorithm _) => true
  | _ => false

/-- The lowercase hex digit table `"0123456789abcdef"` shared by
`encoding/hex` and the `\u00XX` escapes of `encoding/json`. -/
def hexDigitChar (n : Nat) : Char := hexChars.getD n '0'

/-- How `encoding/json` (with its default HTML escaping) renders one
character of a string being marshalled. -/
def jsonEscapeChar (c : Char) : List Char :=
  if c = dquote then [bslash, dquote]
  else if c = bslash then [bslash, bslash]
  else if c = '\n' then [bslash, 'n']
  else if c = '\r' then [bslash, 'r']
  else if c = '\t' then [bslash, 't']
  else if c.toNat < 32 ∨ c = '<' ∨ c = '>' ∨ c = '&' then
    [bslash, 'u', '0', '0', hexDigitChar (c.toNat / 16),
      hexDigitChar (c.toNat % 16)]
  else if c.toNat = 0x2028 ∨ c.toNat = 0x2029 then
    [bslash, 'u', '2', '0', '2', hexDigitChar (c.toNat % 16)]
  else [c]

/-- Embeds `func (h *Hash) MarshalJSON() ([]byte, error)`, i.e.
`json.Marshal(h.String())`: the canonical text wrapped as a JSON-quoted
string (marshalling a string value never fails). -/
def marshalJSON (h : Hash) : List Char :=
  dquote :: (hashString h).flatMap jsonEscapeChar ++ [dquote]

/-- Embeds strconv's `unhex`: the value of one hex digit. -/
def unhex (c : Char) : Option Nat :=
  if '0' ≤ c ∧ c ≤ '9' then some (c.toNat - '0'.toNat)
  else if 'a' ≤ c ∧ c ≤ 'f' then some (c.toNat - 'a'.toNat + 10)
  else if 'A' ≤ c ∧ c ≤ 'F' then some (c.toNat - 'A'.toNat + 10)
  else none

/-- Reads exactly `k` hex digits, accumulating their value. -/
def takeHex : Nat → List Char → Nat → Option (Nat × List Char)
  | 0, s, acc => some (acc, s)
  | _ + 1, [], _ => none
  | k + 1, c :: rest, acc =>
    match unhex c with
    | none => none
    | some v => takeHex k rest (16 * acc + v)

/-- An octal digit, as tested by strconv's escape scanner. -/
def isOctalDigit (c : Char) : Bool := '0' ≤ c ∧ c ≤ '7'

/-- Embeds `strconv.UnquoteChar(s, quote)`: decodes the next (possibly
escaped) character of a quoted literal's body, returning the character, the
`multibyte` flag and the remaining input; `none` models `ErrSyntax`. -/
def unquoteChar (quote : Char) (s : List Char) : Option (Char × Bool × List Char) :=
  match s with
  | [] => none
  | c :: rest =>
    if c = quote ∧ (quote = squote ∨ quote = dquote) then none
    else if c ≠ bslash then some (c, decide (128 ≤ c.toNat), rest)
    else
      match rest with
      | [] => none
      | e :: rest2 =>
        if e = 'a' then some (Char.ofNat 7, false, rest2)
        else if e = 'b' then some (Char.ofNat 8, false, rest2)
        else if e = 'f' then some (Char.ofNat 12, false, rest2)
        else if e = 'n' then some ('\n', false, rest2)
        else if e = 'r' then some ('\r', false, rest2)
        else if e = 't' then some ('\t', false, rest2)
        else if e = 'v' then some (Char.ofNat 11, false, rest2)
        else if e = 'x' then
          match takeHex 2 rest2 0 with
          | some (v, rest3) => some (Char.ofNat v, false, rest3)
          | none => none
        else if e = 'u' then
          match takeHex 4 rest2 0 with
          | some (v, rest3) =>
            if 0xD800 ≤ v ∧ v < 0xE000 then none
            else some (Char.ofNat v, true, rest3)
          | none => none
        else if e = 'U' then
          match takeHex 8 rest2 0 with
          | some (v, rest3) =>
            if (0xD800 ≤ v ∧ v < 0xE000) ∨ 0x10FFFF < v then none
            else some (Char.ofNat v, true, rest3)
          | none => none
        else if isOctalDigit e then
          match rest2 with
          | d1 :: d2 :: rest3 =>
            if isOctalDigit d1 ∧ isOctalDigit d2 then
              let v := (e.toNat - 48) * 64 + (d1.toNat - 48) * 8 +
                (d2.toNat - 48)
              if 255 < v then none else some (Char.ofNat v, false, rest3)
            else none
          | _ => none
        else if e = bslash then some (bslash, false, rest2)
        else if e = squote ∨ e = dquote then
          if e = quote then some (e, false, rest2) else none
        else none

/-- The escape-handling loop of strconv's `unquote`: consumes body
characters with `unquoteChar` until the terminating quote; a single-quoted
literal must close immediately after its one character.  The fuel argument
is always called with more fuel than there are input characters, and each
step consumes at least one character, so it never runs out. -/
def unquoteLoop (quote : Char) : Nat → List Char → List Char →
    Option (List Char × List Char)
  | 0, _, _ => none
  | _ + 1, _, [] => none
  | fuel + 1, acc, c :: rest =>
    if c = quote then some (acc.reverse, rest)
    else if c = '\n' then none
    else
      match unquoteChar quote (c :: rest) with
      | none => none
      | some (r, _, tail) =>
        if quote = squote then
          match tail with
          | q :: rest2 =>
            if q = quote then some ((r :: acc).reverse, rest2) else none
          | [] => none
        else unquoteLoop quote fuel (r :: acc) tail

/-- Splits off everything before the first occurrence of `q`, with the
remainder after it; `none` when `q` does not occur (this is strconv
`unquote`'s scan for the terminating quote). -/
def splitAtQuote (q : Char) : List Char → Option (List Char × List Char)
  | [] => none
  | c :: rest =>
    if c = q then some ([], rest)
    else (splitAtQuote q rest).map (fun p => (c :: p.1, p.2))

/-- Embeds strconv's `unquote(in, unescape=true)` up to the returned
remainder: backquoted raw literals keep their body minus carriage returns;
double/single-quoted literals take a fast path when the body has no
backslash and no newline, and otherwise run the escape loop. -/
def unquoteInner (s : List Char) : Option (List Char × List Char) :=
  match s with
  | [] => none
  | quote :: rest =>
    match splitAtQuote quote rest with
    | none => none
    | some (body, after) =>
      if quote = bquote then
        some (body.filter (fun c => !(c == '\r')), after)
      else if quote = dquote ∨ quote = squote then
        if (¬ bslash ∈ body ∧ ¬ '\n' ∈ body) ∧
            (quote = dquote ∨ body.length = 1) then
          some (body, after)
        else unquoteLoop quote (rest.length + 1) [] rest
      else none

/-- The only error `strconv.Unquote` reports is `ErrSyntax`. -/
inductive UnquoteError where
  | malformed
deriving DecidableEq

/-- Embeds `strconv.Unquote`: the whole input must be consumed. -/
def unquote (s : List Char) : Except UnquoteError (List Char) :=
  match unquoteInner s with
  | none => .error .malformed
  | some (out, rem) => if rem = [] then .ok out else .error .malformed

/-- The two failure sources of `UnmarshalJSON`: a `strconv.Unquote` error
(the spec's `MalformedJSON`) or a `Hash.parse` error. -/
inductive UnmarshalError where
  | malformedJSON
  | parseFailure (e : ParseError)
deriving DecidableEq

/-- Embeds `func (h *Hash) UnmarshalJSON(data []byte) error`: unquote the
raw bytes with `strconv.Unquote`, then parse the unquoted text. -/
def unmarshalJSON (data : List Char) : Except UnmarshalError Hash :=
  match unquote data with
  | .error _ => .error .malformedJSON
  | .ok s =>
    match parse s with
    | .error e => .error (.parseFailure e)
    | .ok h => .ok h

/-- Modelled from the spec: a recogniser for a "validly JSON-quoted
string" (an RFC 8259 JSON string literal), which the spec names as the
only inputs deserialization accepts.  It is used solely to state that a
given concrete input is not such a literal; `UnmarshalJSON`'s own behaviour
is embedded from the source above. -/
def jsonStringBody : List Char → Bool
  | [] => false
  | c :: rest =>
    if c = dquote then rest.isEmpty
    else if c = bslash then
      match rest with
      | [] => false
      | e :: rest2 =>
        if e = dquote ∨ e = bslash ∨ e = '/' ∨ e = 'b' ∨ e = 'f' ∨
            e = 'n' ∨ e = 'r' ∨ e = 't' then jsonStringBody rest2
        else if e = 'u' then
          match rest2 with
          | h1 :: h2 :: h3 :: h4 :: rest3 =>
            (unhex h1).isSome && (unhex h2).isSome && (unhex h3).isSome &&
              (unhex h4).isSome && jsonStringBody rest3
          | _ => false
        else false
    else if c.toNat < 32 then false
    else jsonStringBody rest

/-- Modelled from the spec: an RFC 8259 JSON string literal is a double
quote, a body of unescaped-or-escaped characters, and a closing double
quote ending the input. -/
def isJsonStringLit (s : List Char) : Bool :=
  match s with
  | c :: rest => c = dquote && jsonStringBody rest
  | [] => false

/-- Truncation to a 32-bit word. -/
def w32 (x : Nat) : Nat := x % 4294967296

/-- 32-bit right rotation (the argument is a 32-bit word). -/
def rotr32 (n x : Nat) : Nat := w32 ((x >>> n) ||| (x <<< (32 - n)))

/-- The SHA-256 choice function, with complement done by xor against the
32-bit mask. -/
def ch (x y z : Nat) : Nat := (x &&& y) ^^^ ((x ^^^ 4294967295) &&& z)

/-- The SHA-256 majority function. -/
def maj (x y z : Nat) : Nat := (x &&& y) ^^^ (x &&& z) ^^^ (y &&& z)

/-- Big sigma-0. -/
def bsig0 (x : Nat) : Nat := rotr32 2 x ^^^ rotr32 13 x ^^^ rotr32 22 x

/-- Big sigma-1. -/
def bsig1 (x : Nat) : Nat := rotr32 6 x ^^^ rotr32 11 x ^^^ rotr32 25 x

/-- Small sigma-0. -/
def ssig0 (x : Nat) : Nat := rotr32 7 x ^^^ rotr32 18 x ^^^ (x >>> 3)

/-- Small sigma-1. -/
def ssig1 (x : Nat) : Nat := rotr32 17 x ^^^ rotr32 19 x ^^^ (x >>> 10)

/-- The 64 SHA-256 round constants of FIPS 180-4, written in decimal. -/
def sha256K : List Nat :=
  [1116352408, 1899447441, 3049323471, 3921009573, 961987163, 1508970993,
   2453635748, 2870763221, 3624381080, 310598401, 607225278, 1426881987,
   1925078388, 2162078206, 2614888103, 3248222580, 3835390401, 4022224774,
   264347078, 604807628, 770255983, 1249150122, 1555081692, 1996064986,
   2554220882, 2821834349, 2952996808, 3210313671, 3336571891, 3584528711,
   113926993, 338241895, 666307205, 773529912, 1294757372, 1396182291,
   1695183700, 1986661051, 2177026350, 2456956037, 2730485921, 2820302411,
   3259730800, 3345764771, 3516065817, 3600352804, 4094571909, 275423344,
   430227734, 506948616, 659060556, 883997877, 958139571, 1322822218,
   1537002063, 1747873779, 1955562222, 2024104815, 2227730452, 2361852424,
   2428436474, 2756734187, 3204031479, 3329325298]

/-- The eight 32-bit words of the running SHA-256 state. -/
structure SHAState where
  a : Nat
  b : Nat
  c : Nat
  d : Nat
  e : Nat
  f : Nat
  g : Nat
  h : Nat
deriving DecidableEq

/-- The SHA-256 initialisation vector of FIPS 180-4, written in decimal. -/
def initState : SHAState :=
  ⟨1779033703, 3144134277, 1013904242, 2773480762, 1359893119, 2600822924,
   528734635, 1541459225⟩

/-- Groups a block's bytes into big-endian 32-bit words. -/
def wordsOfBytes : List Nat → List Nat
  | b0 :: b1 :: b2 :: b3 :: rest =>
    (b0 * 16777216 + b1 * 65536 + b2 * 256 + b3) :: wordsOfBytes rest
  | _ => []

/-- Extends the 16 words of a block to the 64-entry message schedule. -/
def extendSchedule (W0 : Array Nat) : Array Nat :=
  (List.range 48).foldl
    (fun W _ =>
      W.push (w32 (ssig1 (W.getD (W.size - 2) 0) + W.getD (W.size - 7) 0 +
        ssig0 (W.getD (W.size - 15) 0) + W.getD (W.size - 16) 0)))
    W0

/-- One SHA-256 compression over a 64-byte block. -/
def compressBlock (H0 : SHAState) (block : List Nat) : SHAState :=
  let W := extendSchedule (wordsOfBytes block).toArray
  let st := (List.zip sha256K W.toList).foldl
    (fun st kw =>
      let t1 := w32 (st.h + bsig1 st.e + ch st.e st.f st.g + kw.1 + kw.2)
      let t2 := w32 (bsig0 st.a + maj st.a st.b st.c)
      ⟨w32 (t1 + t2), st.a, st.b, st.c, w32 (st.d + t1), st.e, st.f, st.g⟩)
    H0
  ⟨w32 (H0.a + st.a), w32 (H0.b + st.b), w32 (H0.c + st.c),
   w32 (H0.d + st.d), w32 (H0.e + st.e), w32 (H0.f + st.f),
   w32 (H0.g + st.g), w32 (H0.h + st.h)⟩

/-- The 8-byte big-endian encoding of the message bit length. -/
def lengthBytes (n : Nat) : List Nat :=
  [n / 72057594037927936 % 256, n / 281474976710656 % 256,
   n / 1099511627776 % 256, n / 4294967296 % 256, n / 16777216 % 256,
   n / 65536 % 256, n / 256 % 256, n % 256]

/-- SHA-256 padding: a `0x80` byte, zeros to 56 mod 64, then the bit
length. -/
def padMessage (msg : List Nat) : List Nat :=
  msg ++ 128 :: List.replicate ((120 - (msg.length + 1) % 64) % 64) 0 ++
    lengthBytes (8 * msg.length)

/-- Cuts a padded message into blocks of 64 bytes.  The fuel argument is
structural so that the definition unfolds by computation; since every step
consumes at least one element of a non-empty list, fuel equal to the list
length always suffices. -/
def chunks64Go : Nat → List Nat → List (List Nat)
  | _, [] => []
  | 0, _ => []
  | fuel + 1, l => l.take 64 :: chunks64Go fuel (l.drop 64)

/-- Cuts a padded message into blocks of 64 bytes. -/
def chunks64 (l : List Nat) : List (List Nat) := chunks64Go l.length l

/-- The four big-endian bytes of a 32-bit word. -/
def wordBytes (w : Nat) : List Nat :=
  [w / 16777216 % 256, w / 65536 % 256, w / 256 % 256, w % 256]

/-- The 32-byte SHA-256 digest of a byte list. -/
def sha256Digest (msg : List Nat) : List Nat :=
  let F := (chunks64 (padMessage msg)).foldl compressBlock initState
  wordBytes F.a ++ wordBytes F.b ++ wordBytes F.c ++ wordBytes F.d ++
    wordBytes F.e ++ wordBytes F.f ++ wordBytes F.g ++ wordBytes F.h

/-- Embeds `hex.EncodeToString`: two lowercase hex digits per byte. -/
def hexEncode : List Nat → List Char
  | [] => []
  | b :: bs => hexDigitChar (b / 16) :: hexDigitChar (b % 16) :: hexEncode bs

/-- Behavioural model of the `io.ReadCloser` handed to `SHA256`: the reader
yields `chunks` in order and then either reports end-of-stream
(`failsAfter = false`) or a read error (`failsAfter = true`).  Bytes are
`Nat` values below 256 in real streams. -/
structure ReadCloserModel where
  chunks : List (List Nat)
  failsAfter : Bool
deriving DecidableEq

/-- The observable actions `SHA256` performs on its reader, in order. -/
inductive StreamEvent where
  | read (chunk : List Nat)
  | readError
  | close
deriving DecidableEq, BEq

/-- The error `io.Copy` reports when a read fails. -/
inductive CopyError where
  | ioFailure
deriving DecidableEq

/-- The full outcome of a `SHA256` call: the returned triple
`(Hash, int64, error)` plus the trace of actions on the reader. -/
structure SHA256Output where
  hash : Hash
  n : Nat
  copyErr : Option CopyError
  events : List StreamEvent
deriving DecidableEq

/-- Embeds `func SHA256(r io.ReadCloser) (Hash, int64, error)`:
`defer r.Close()` closes the reader exactly once on every exit path (the
final `close` event), `io.Copy` feeds the stream into the hash state, and
a read failure returns the zero hash, a zero count and the error. -/
def SHA256 (r : ReadCloserModel) : SHA256Output :=
  let data := r.chunks.flatten
  let events := r.chunks.map StreamEvent.read ++
    (if r.failsAfter then [StreamEvent.readError] else []) ++
    [StreamEvent.close]
  if r.failsAfter then ⟨⟨[], []⟩, 0, some .ioFailure, events⟩
  else
    ⟨⟨"sha256".toList, hexEncode (sha256Digest data)⟩, data.length, none,
      events⟩


/-! ## Theorems -/

theorem splitOnColon_ne_nil (l : List Char) : splitOnColon l ≠ [] := by
  cases l with
  | nil => simp [splitOnColon]
  | cons c rest =>
    simp only [splitOnColon]
    split
    · simp
    · split <;> simp

theorem splitOnColon_no_colon (l : List Char) (h : ∀ c ∈ l, c ≠ ':') :
    splitOnColon l = [l] := by
  induction l with
  | nil => rfl
  | cons c rest ih =>
    have hc : c ≠ ':' := h c (by simp)
    have ih' := ih (fun d hd => h d (by simp [hd]))
    simp [splitOnColon, hc, ih']

theorem splitOnColon_append (xs ys : List Char) (h : ∀ c ∈ xs, c ≠ ':') :
    splitOnColon (xs ++ ':' :: ys) = xs :: splitOnColon ys := by
  induction xs with
  | nil => simp [splitOnColon]
  | cons c xs ih =>
    have hc : c ≠ ':' := h c (by simp)
    have ih' := ih (fun d hd => h d (by simp [hd]))
    simp only [List.cons_append, splitOnColon, hc, if_false]
    rw [show xs.append (':' :: ys) = xs ++ ':' :: ys from rfl, ih']

theorem splitOnColon_length (l : List Char) :
    (splitOnColon l).length = l.count ':' + 1 := by
  induction l with
  | nil => simp [splitOnColon]
  | cons c rest ih =>
    by_cases hc : c = ':'
    · subst hc
      simp [splitOnColon, List.count_cons, ih]
    · have hne := splitOnColon_ne_nil rest
      simp only [splitOnColon, hc, if_false]
      cases hsp : splitOnColon rest with
      | nil => exact absurd hsp hne
      | cons p ps =>
        rw [hsp] at ih
        simp only [List.length_cons] at ih ⊢
        simp [List.count_cons, hc, ← ih]

theorem dropWhile_eq_nil_of_all {p : Char → Bool} (l : List Char)
    (h : ∀ c ∈ l, p c = true) : l.dropWhile p = [] := by
  induction l with
  | nil => rfl
  | cons c rest ih =>
    simp only [List.dropWhile, h c (by simp)]
    exact ih (fun d hd => h d (by simp [hd]))

theorem dropWhile_append_first_false {p : Char → Bool} (pre : List Char)
    (c : Char) (suf : List Char) (hpre : ∀ d ∈ pre, p d = true)
    (hc : p c = false) : (pre ++ c :: suf).dropWhile p = c :: suf := by
  induction pre with
  | nil => simp [List.dropWhile, hc]
  | cons d pre ih =>
    simp only [List.cons_append, List.dropWhile, hpre d (by simp)]
    exact ih (fun e he => hpre e (by simp [he]))

theorem hexChars_ne_colon : ∀ c ∈ hexChars, c ≠ ':' := by decide

theorem sha256Chars_ne_colon : ∀ c ∈ "sha256".toList, c ≠ ':' := by decide

/-- Parsing `"sha256:" ++ hx` for a 64-character all-hex `hx` succeeds with
algorithm `sha256` and hex `hx`. -/
theorem parse_ok_of_valid (hx : List Char) (hlen : hx.length = 64)
    (hhex : ∀ c ∈ hx, c ∈ hexChars) :
    parse ("sha256:".toList ++ hx) = .ok ⟨"sha256".toList, hx⟩ := by
  have hrw : "sha256:".toList ++ hx = "sha256".toList ++ ':' :: hx := rfl
  have hnc : ∀ c ∈ hx, c ≠ ':' := fun c hc => hexChars_ne_colon c (hhex c hc)
  have hsplit : splitOnColon ("sha256".toList ++ ':' :: hx) =
      ["sha256".toList, hx] := by
    rw [splitOnColon_append _ _ sha256Chars_ne_colon, splitOnColon_no_colon _ hnc]
  have hdrop : hx.dropWhile (fun c => decide (c ∈ hexChars)) = [] :=
    dropWhile_eq_nil_of_all _ (fun c hc => by simp [hhex c hc])
  rw [hrw]
  unfold parse
  rw [hsplit]
  simp [hdrop, hlen]

/-- When the input does not contain exactly one colon, parsing fails with
the too-many-parts error carrying the whole input. -/
theorem parse_wrong_colon_count (s : List Char) (h : s.count ':' ≠ 1) :
    parse s = .error (.tooManyParts s) := by
  have hlen : (splitOnColon s).length ≠ 2 := by
    rw [splitOnColon_length]; omega
  rcases hsp : splitOnColon s with _ | ⟨a, _ | ⟨b, _ | ⟨c, l⟩⟩⟩
  · exact absurd hsp (splitOnColon_ne_nil s)
  · simp [parse, hsp]
  · rw [hsp] at hlen; simp at hlen
  · simp [parse, hsp]

/-- Parsing `algo ++ ":" ++ (pre ++ c :: suf)` where `pre` is all hex and
`c` is the first non-hex, non-colon character reports exactly `c`. -/
theorem parse_nonhex (algo pre suf : List Char) (c : Char)
    (halgo : ∀ d ∈ algo, d ≠ ':') (hpre : ∀ d ∈ pre, d ∈ hexChars)
    (hc : c ∉ hexChars) (hcc : c ≠ ':') (hsuf : ∀ d ∈ suf, d ≠ ':') :
    parse (algo ++ ':' :: (pre ++ c :: suf)) = .error (.nonHexChar c) := by
  have hnc : ∀ d ∈ pre ++ c :: suf, d ≠ ':' := by
    intro d hd
    rcases List.mem_append.1 hd with h1 | h2
    · exact hexChars_ne_colon d (hpre d h1)
    · rcases List.mem_cons.1 h2 with rfl | h3
      · exact hcc
      · exact hsuf d h3
  have hsplit : splitOnColon (algo ++ ':' :: (pre ++ c :: suf)) =
      [algo, pre ++ c :: suf] := by
    rw [splitOnColon_append _ _ halgo, splitOnColon_no_colon _ hnc]
  have hdrop : (pre ++ c :: suf).dropWhile (fun d => decide (d ∈ hexChars)) =
      c :: suf :=
    dropWhile_append_first_false pre c suf (fun d hd => by simp [hpre d hd])
      (by simp [hc])
  unfold parse
  rw [hsplit]
  simp [hdrop]

/-- Parsing `algo ++ ":" ++ rest` with an all-hex `rest` and an algorithm
other than `sha256` reaches the default branch of the switch. -/
theorem parse_unsupported (algo rest : List Char)
    (halgo : ∀ d ∈ algo, d ≠ ':') (hne : algo ≠ "sha256".toList)
    (hrest : ∀ d ∈ rest, d ∈ hexChars) :
    parse (algo ++ ':' :: rest) = .error (.unsupportedAlgorithm algo) := by
  have hnc : ∀ d ∈ rest, d ≠ ':' := fun d hd => hexChars_ne_colon d (hrest d hd)
  have hsplit : splitOnColon (algo ++ ':' :: rest) = [algo, rest] := by
    rw [splitOnColon_append _ _ halgo, splitOnColon_no_colon _ hnc]
  have hdrop : rest.dropWhile (fun d => decide (d ∈ hexChars)) = [] :=
    dropWhile_eq_nil_of_all _ (fun d hd => by simp [hrest d hd])
  have hne' : algo ≠ ['s', 'h', 'a', '2', '5', '6'] := hne
  unfold parse
  rw [hsplit]
  simp [hdrop, hne']

/-- A successfully parsed hash satisfies the data-model invariants. -/
theorem hashInvariant_of_parse (s : List Char) (h : Hash)
    (hp : parse s = .ok h) : hashInvariant h := by
  unfold parse at hp
  split at hp
  next a b =>
    split at hp
    next hdrop =>
      split at hp
      next halgo =>
        split at hp
        next hlen =>
          cases hp
          subst halgo
          refine ⟨?_, rfl, ?_, fun _ => hlen⟩
          · show ("sha256".toList : List Char) ≠ []
            decide
          intro c hc
          have hcd := (List.dropWhile_eq_nil_iff.1 hdrop) c hc
          simpa using hcd
        next => cases hp
      next => cases hp
    next => cases hp
  next => cases hp

/-- C1: for every string `h` of exactly 64 characters drawn from
`0123456789abcdef`, parsing `"sha256:" ++ h` succeeds, the result has
algorithm `"sha256"` and hex `h`, and rendering it back gives exactly
`"sha256:" ++ h`. -/
theorem C1_parse_render_roundtrip (hx : List Char) (hlen : hx.length = 64)
    (hhex : ∀ c ∈ hx, c ∈ hexChars) :
    parse ("sha256:".toList ++ hx) = .ok ⟨"sha256".toList, hx⟩ ∧
    hashString ⟨"sha256".toList, hx⟩ = "sha256:".toList ++ hx :=
  ⟨parse_ok_of_valid hx hlen hhex, rfl⟩

/-- Witness for C1 at the concrete digest of 64 `'0'` characters. -/
theorem C1_parse_render_roundtrip_witness :
    (List.replicate 64 '0').length = 64 ∧
    (∀ c ∈ List.replicate 64 '0', c ∈ hexChars) ∧
    (parse ("sha256:".toList ++ List.replicate 64 '0') =
        .ok ⟨"sha256".toList, List.replicate 64 '0'⟩ ∧
      hashString ⟨"sha256".toList, List.replicate 64 '0'⟩ =
        "sha256:".toList ++ List.replicate 64 '0') :=
  ⟨by decide, by decide, C1_parse_render_roundtrip _ (by decide) (by decide)⟩

/-- C3 counterexample: `"md5:g"` has a non-`sha256` algorithm and a non-hex
remainder, yet parsing fails with the non-hex-character error, not with the
unsupported-algorithm error the claim demands. -/
theorem C3_counterexample :
    parse "md5:g".toList = .error (.nonHexChar 'g') ∧
    resultIsUnsupported (parse "md5:g".toList) = false := by
  exact ⟨by decide, by decide⟩

/-- C3 as amended: for a colon-free algorithm other than `"sha256"` and an
all-hex remainder, parsing fails with the unsupported-algorithm error; when
the remainder contains a non-hex character, the earlier hex scan fails
first. -/
theorem C3_amended_unsupported (algo rest : List Char)
    (halgo : ∀ d ∈ algo, d ≠ ':') (hne : algo ≠ "sha256".toList)
    (hrest : ∀ d ∈ rest, d ∈ hexChars) :
    parse (algo ++ ':' :: rest) = .error (.unsupportedAlgorithm algo) :=
  parse_unsupported algo rest halgo hne hrest

/-- Witness for the amended C3 at `"md5:0123"`. -/
theorem C3_amended_unsupported_witness :
    (∀ d ∈ "md5".toList, d ≠ ':') ∧ "md5".toList ≠ "sha256".toList ∧
    (∀ d ∈ "0123".toList, d ∈ hexChars) ∧
    parse ("md5".toList ++ ':' :: "0123".toList) =
      .error (.unsupportedAlgorithm "md5".toList) :=
  ⟨by decide, by decide, by decide,
    C3_amended_unsupported _ _ (by decide) (by decide) (by decide)⟩

/-- C7 counterexample: `h = "dead:beef"` contains the non-hex character
`':'`, but parsing `"sha256:dead:beef"` fails at the colon-splitting step
with the too-many-parts error, which identifies no offending character. -/
theorem C7_counterexample :
    parse "sha256:dead:beef".toList =
      .error (.tooManyParts "sha256:dead:beef".toList) ∧
    (ParseError.tooManyParts "sha256:dead:beef".toList).identifiedChar =
      none := by
  exact ⟨by decide, rfl⟩

/-- C7 as amended: for a colon-free `h` containing a non-hex character
(written `pre ++ c :: suf` with `pre` all hex — so `c` is the leftmost
non-hex character of `h`), parsing `"sha256:" ++ h` fails with an
InvalidFormat error that identifies exactly `c`. -/
theorem C7_amended_nonhex (pre suf : List Char) (c : Char)
    (hpre : ∀ d ∈ pre, d ∈ hexChars) (hc : c ∉ hexChars) (hcc : c ≠ ':')
    (hsuf : ∀ d ∈ suf, d ≠ ':') :
    parse ("sha256:".toList ++ (pre ++ c :: suf)) = .error (.nonHexChar c) ∧
    (ParseError.nonHexChar c).isInvalidFormat = true ∧
    (ParseError.nonHexChar c).identifiedChar = some c := by
  refine ⟨?_, rfl, rfl⟩
  exact parse_nonhex "sha256".toList pre suf c sha256Chars_ne_colon hpre hc
    hcc hsuf

/-- Witness for the amended C7 with the uppercase offender `'Z'` inside
`"deadZbeef"`. -/
theorem C7_amended_nonhex_witness :
    (∀ d ∈ "dead".toList, d ∈ hexChars) ∧ 'Z' ∉ hexChars ∧ 'Z' ≠ ':' ∧
    (∀ d ∈ "beef".toList, d ≠ ':') ∧
    (parse ("sha256:".toList ++ ("dead".toList ++ 'Z' :: "beef".toList)) =
        .error (.nonHexChar 'Z') ∧
      (ParseError.nonHexChar 'Z').isInvalidFormat = true ∧
      (ParseError.nonHexChar 'Z').identifiedChar = some 'Z') :=
  ⟨by decide, by decide, by decide, by decide,
    C7_amended_nonhex _ _ _ (by decide) (by decide) (by decide) (by decide)⟩

/-- C8: an input with zero colons or with two or more colons fails to parse
with the too-many-parts error, an InvalidFormat failure. -/
theorem C8_wrong_part_count (s : List Char)
    (h : s.count ':' = 0 ∨ 2 ≤ s.count ':') :
    parse s = .error (.tooManyParts s) ∧
    (ParseError.tooManyParts s).isInvalidFormat = true :=
  ⟨parse_wrong_colon_count s (by omega), rfl⟩

/-- Witness for C8 at the colon-free input `"sha256deadbeef"`. -/
theorem C8_wrong_part_count_witness :
    ("sha256deadbeef".toList.count ':' = 0 ∨
      2 ≤ "sha256deadbeef".toList.count ':') ∧
    (parse "sha256deadbeef".toList =
        .error (.tooManyParts "sha256deadbeef".toList) ∧
      (ParseError.tooManyParts "sha256deadbeef".toList).isInvalidFormat =
        true) :=
  ⟨by decide, C8_wrong_part_count _ (by decide)⟩

theorem flatMap_id_of_safe (l : List Char)
    (h : ∀ c ∈ l, jsonEscapeChar c = [c]) :
    l.flatMap jsonEscapeChar = l := by
  induction l with
  | nil => rfl
  | cons c rest ih =>
    rw [List.flatMap_cons, h c (by simp), ih (fun d hd => h d (by simp [hd]))]
    rfl

theorem splitAtQuote_append (q : Char) (xs ys : List Char) (h : q ∉ xs) :
    splitAtQuote q (xs ++ q :: ys) = some (xs, ys) := by
  induction xs with
  | nil => simp [splitAtQuote]
  | cons c xs ih =>
    have hc : ¬ c = q := fun e => h (by simp [e])
    have ih' := ih (fun m => h (by simp [m]))
    simp [splitAtQuote, hc, ih']

/-- Unquoting a double-quoted body free of quotes, backslashes and
newlines takes strconv's fast path and returns the body unchanged. -/
theorem unquote_quoted (body : List Char) (hq : dquote ∉ body)
    (hb : bslash ∉ body) (hn : '\n' ∉ body) :
    unquote (dquote :: body ++ [dquote]) = .ok body := by
  have hsp : splitAtQuote dquote (body ++ [dquote]) = some (body, []) :=
    splitAtQuote_append _ _ _ hq
  simp +decide [unquote, unquoteInner, hsp, hb, hn]

/-- Every character of `hexChars` is JSON-safe: it marshals to itself and
is none of quote, backslash, newline. -/
theorem hexChars_json_safe :
    ∀ c ∈ hexChars,
      jsonEscapeChar c = [c] ∧ c ≠ dquote ∧ c ≠ bslash ∧ c ≠ '\n' := by
  decide

/-- The fixed characters of the canonical form are JSON-safe as well. -/
theorem sha256_colon_json_safe :
    ∀ c ∈ "sha256".toList ++ [':'],
      jsonEscapeChar c = [c] ∧ c ≠ dquote ∧ c ≠ bslash ∧ c ≠ '\n' := by
  decide

/-- All characters of the canonical text of a valid hash are JSON-safe. -/
theorem hashString_safe (h : Hash) (halgo : h.algorithm = "sha256".toList)
    (hhex : ∀ c ∈ h.hex, c ∈ hexChars) :
    ∀ c ∈ hashString h,
      jsonEscapeChar c = [c] ∧ c ≠ dquote ∧ c ≠ bslash ∧ c ≠ '\n' := by
  intro c hc
  unfold hashString at hc
  rw [halgo] at hc
  rcases List.mem_append.1 hc with h1 | h2
  · exact sha256_colon_json_safe c (List.mem_append.2 (Or.inl h1))
  · rcases List.mem_cons.1 h2 with hcol | h3
    · rw [hcol]
      exact sha256_colon_json_safe ':' (by simp)
    · exact hexChars_json_safe c (hhex c h3)

/-- A hash satisfying the invariants parses back from its canonical
text. -/
theorem parse_hashString (h : Hash) (halgo : h.algorithm = "sha256".toList)
    (hhex : ∀ c ∈ h.hex, c ∈ hexChars) (hlen : h.hex.length = 64) :
    parse (hashString h) = .ok h := by
  obtain ⟨a, x⟩ := h
  simp only at halgo hhex hlen
  subst halgo
  have hrw : hashString ⟨"sha256".toList, x⟩ = "sha256:".toList ++ x := rfl
  rw [hrw, parse_ok_of_valid x hlen hhex]

/-- C4: serializing a valid hash to JSON and deserializing the result
yields a hash equal (in both fields) to the original. -/
theorem C4_json_roundtrip (h : Hash) (hinv : hashInvariant h) :
    unmarshalJSON (marshalJSON h) = .ok h := by
  obtain ⟨-, halgo, hhex, hlen⟩ := hinv
  have hsafe := hashString_safe h halgo hhex
  have hmap : (hashString h).flatMap jsonEscapeChar = hashString h :=
    flatMap_id_of_safe _ (fun c hc => (hsafe c hc).1)
  have huq : unquote (dquote :: hashString h ++ [dquote]) =
      .ok (hashString h) :=
    unquote_quoted _ (fun m => (hsafe _ m).2.1 rfl)
      (fun m => (hsafe _ m).2.2.1 rfl) (fun m => (hsafe _ m).2.2.2 rfl)
  have hparse : parse (hashString h) = .ok h :=
    parse_hashString h halgo hhex (hlen halgo)
  unfold marshalJSON
  rw [hmap]
  simp only [unmarshalJSON, huq, hparse]

/-- Witness for C4 at the concrete hash with 64 `'a'` digits. -/
theorem C4_json_roundtrip_witness :
    hashInvariant ⟨"sha256".toList, List.replicate 64 'a'⟩ ∧
    unmarshalJSON (marshalJSON ⟨"sha256".toList, List.replicate 64 'a'⟩) =
      .ok ⟨"sha256".toList, List.replicate 64 'a'⟩ :=
  ⟨by decide, C4_json_roundtrip _ (by decide)⟩

/-- C9 counterexample: a Go backquoted raw literal is not a JSON string
literal, yet `UnmarshalJSON` (which delegates to `strconv.Unquote`)
accepts it and produces a hash. -/
theorem C9_counterexample :
    isJsonStringLit
        (bquote :: ("sha256:".toList ++ List.replicate 64 'a' ++ [bquote])) =
      false ∧
    unmarshalJSON
        (bquote :: ("sha256:".toList ++ List.replicate 64 'a' ++ [bquote])) =
      .ok ⟨"sha256".toList, List.replicate 64 'a'⟩ :=
  ⟨by decide, by decide⟩

/-- C9 as amended: deserialization accepts exactly the inputs valid per
Go's quoted-string syntax (`strconv.Unquote`); when unquoting fails the
error is `MalformedJSON` and no canonical-text parsing occurs, and every
accepted input factors through a successful unquote followed by a
successful parse. -/
theorem C9_amended_go_quoting :
    (∀ data : List Char, unquote data = .error .malformed →
      unmarshalJSON data = .error .malformedJSON) ∧
    (∀ (data : List Char) (h : Hash), unmarshalJSON data = .ok h →
      ∃ s, unquote data = .ok s ∧ parse s = .ok h) := by
  constructor
  · intro data he
    unfold unmarshalJSON
    rw [he]
  · intro data h hm
    unfold unmarshalJSON at hm
    cases hu : unquote data with
    | error e =>
      simp only [hu] at hm
      exact Except.noConfusion hm
    | ok s =>
      simp only [hu] at hm
      cases hp : parse s with
      | error e =>
        simp only [hp] at hm
        exact Except.noConfusion hm
      | ok h2 =>
        simp only [hp] at hm
        cases hm
        exact ⟨s, rfl, hp⟩

/-- Witness for the amended C9 at the unquotable input `"x"`. -/
theorem C9_amended_go_quoting_witness :
    unquote "x".toList = .error .malformed ∧
    unmarshalJSON "x".toList = .error .malformedJSON :=
  ⟨by decide, C9_amended_go_quoting.1 "x".toList (by decide)⟩

/-- A hash produced by JSON deserialization satisfies the data-model
invariants (it went through `parse`). -/
theorem hashInvariant_of_unmarshal (data : List Char) (h : Hash)
    (hm : unmarshalJSON data = .ok h) : hashInvariant h := by
  unfold unmarshalJSON at hm
  cases hu : unquote data with
  | error e =>
    simp only [hu] at hm
    exact Except.noConfusion hm
  | ok s =>
    simp only [hu] at hm
    cases hp : parse s with
    | error e =>
      simp only [hp] at hm
      exact Except.noConfusion hm
    | ok h2 =>
      simp only [hp] at hm
      cases hm
      exact hashInvariant_of_parse s _ hp

/-- The embedded SHA-256 reproduces the standard FIPS 180-4 test vector
for the three-byte message `"abc"`, validating the compression function,
schedule, padding and hex encoding. -/
theorem sha256_abc_vector :
    hexEncode (sha256Digest [97, 98, 99]) =
      "ba7816bf8f01cfea414140de5dae2223b00361a396177a9cb410ff61f20015ad".toList := by
  decide

theorem hexDigitChar_mem (n : Nat) : hexDigitChar n ∈ hexChars := by
  unfold hexDigitChar
  rcases Nat.lt_or_ge n 16 with h | h
  · have hall : ∀ m, m < 16 → hexChars.getD m '0' ∈ hexChars := by decide
    exact hall n h
  · rw [List.getD_eq_getElem?_getD, List.getElem?_eq_none (by exact h)]
    decide

theorem hexEncode_mem (bs : List Nat) : ∀ c ∈ hexEncode bs, c ∈ hexChars := by
  induction bs with
  | nil => intro c hc; cases hc
  | cons b rest ih =>
    intro c hc
    rcases List.mem_cons.1 hc with rfl | hc2
    · exact hexDigitChar_mem _
    · rcases List.mem_cons.1 hc2 with rfl | hc3
      · exact hexDigitChar_mem _
      · exact ih c hc3

theorem hexEncode_length (bs : List Nat) :
    (hexEncode bs).length = 2 * bs.length := by
  induction bs with
  | nil => rfl
  | cons b rest ih =>
    simp [hexEncode, ih]
    omega

theorem sha256Digest_length (msg : List Nat) :
    (sha256Digest msg).length = 32 := by
  unfold sha256Digest
  simp [wordBytes]

/-- A hash produced by a successful `SHA256` call satisfies the data-model
invariants: algorithm `sha256` and a 64-character all-hex digest. -/
theorem hashInvariant_of_SHA256 (r : ReadCloserModel)
    (hok : r.failsAfter = false) : hashInvariant (SHA256 r).hash := by
  unfold SHA256
  simp only [hok, Bool.false_eq_true, if_false]
  refine ⟨?_, rfl, ?_, fun _ => ?_⟩
  · show ("sha256".toList : List Char) ≠ []
    decide
  · show ∀ c ∈ hexEncode (sha256Digest r.chunks.flatten), c ∈ hexChars
    exact hexEncode_mem _
  · show (hexEncode (sha256Digest r.chunks.flatten)).length = 64
    rw [hexEncode_length, sha256Digest_length]

theorem beq_read_close (c : List Nat) :
    (StreamEvent.read c == StreamEvent.close) = false := rfl

theorem count_close_map_read (l : List (List Nat)) :
    (l.map StreamEvent.read).count StreamEvent.close = 0 := by
  induction l with
  | nil => rfl
  | cons c rest ih => simp [List.count_cons, ih, beq_read_close]

/-- C2 counterexample: the digest of the empty stream is not the
63-character string the claim names (the true digest has 64 characters, of
which the claim's string drops the last). -/
theorem C2_counterexample :
    (SHA256 ⟨[], false⟩).hash.hex ≠
      "e3b0c44298fc1c149afbf4c8996fb92427ae41e4649b934ca495991b7852b85".toList ∧
    (SHA256 ⟨[], false⟩).n = 0 := by
  exact ⟨by decide, by decide⟩

/-- C2 as amended: the SHA-256 of an empty stream has algorithm `sha256`,
hex `e3b0c44298fc1c149afbf4c8996fb92427ae41e4649b934ca495991b7852b855`
(the standard 64-character empty-message digest), and byte count 0 with no
error. -/
theorem C2_amended_empty_digest :
    (SHA256 ⟨[], false⟩).hash =
      ⟨"sha256".toList,
        "e3b0c44298fc1c149afbf4c8996fb92427ae41e4649b934ca495991b7852b855".toList⟩ ∧
    (SHA256 ⟨[], false⟩).n = 0 ∧ (SHA256 ⟨[], false⟩).copyErr = none := by
  exact ⟨by decide, by decide, by decide⟩

/-- C6: every `SHA256` run closes the reader exactly once, the close is
the last action before returning (after all reads, and after the failing
read when there is one), and a failing stream yields the IO-failure
error. -/
theorem C6_close_exactly_once (r : ReadCloserModel) :
    (SHA256 r).events.count StreamEvent.close = 1 ∧
    (SHA256 r).events.getLast? = some StreamEvent.close ∧
    (r.failsAfter = true → (SHA256 r).copyErr = some CopyError.ioFailure) := by
  unfold SHA256
  cases hf : r.failsAfter <;>
    simp +decide [List.count_append, count_close_map_read,
      List.getLast?_concat]

/-- Witness for C6 on a failing one-chunk stream. -/
theorem C6_close_exactly_once_witness :
    (SHA256 ⟨[[1]], true⟩).events.count StreamEvent.close = 1 ∧
    (SHA256 ⟨[[1]], true⟩).events.getLast? = some StreamEvent.close ∧
    (SHA256 ⟨[[1]], true⟩).copyErr = some CopyError.ioFailure :=
  ⟨(C6_close_exactly_once ⟨[[1]], true⟩).1,
    (C6_close_exactly_once ⟨[[1]], true⟩).2.1,
    (C6_close_exactly_once ⟨[[1]], true⟩).2.2 rfl⟩

/-- C10: a failing `SHA256` run returns byte count 0 (whatever was read
before the failure) together with the IO-failure error, and a non-zero
count happens only on full success. -/
theorem C10_zero_count_on_error (r : ReadCloserModel) :
    (r.failsAfter = true →
      (SHA256 r).n = 0 ∧ (SHA256 r).copyErr = some CopyError.ioFailure) ∧
    ((SHA256 r).n ≠ 0 → r.failsAfter = false ∧ (SHA256 r).copyErr = none) := by
  unfold SHA256
  cases hf : r.failsAfter <;> simp

/-- Witness for C10 on a failing stream that had already delivered three
bytes. -/
theorem C10_zero_count_on_error_witness :
    (SHA256 ⟨[[1, 2, 3]], true⟩).n = 0 ∧
    (SHA256 ⟨[[1, 2, 3]], true⟩).copyErr = some CopyError.ioFailure :=
  (C10_zero_count_on_error ⟨[[1, 2, 3]], true⟩).1 rfl

/-- C5 counterexample: the zero-value hash the code itself returns
alongside a parse error (`return Hash{}, err` in `NewHash`) is a live
instance violating the invariants — its algorithm is empty. -/
theorem C5_counterexample :
    (NewHash "not-a-hash".toList).1 = ⟨[], []⟩ ∧
    ¬ hashInvariant (NewHash "not-a-hash".toList).1 := by
  exact ⟨by decide, by decide⟩

/-- C5 as amended: every hash produced on a success path — text parsing,
JSON deserialization, or a successful streaming SHA-256 computation —
satisfies the invariants; only the zero value returned alongside an error
escapes them. -/
theorem C5_amended_invariants :
    (∀ (s : List Char) (h : Hash), parse s = .ok h → hashInvariant h) ∧
    (∀ (d : List Char) (h : Hash), unmarshalJSON d = .ok h →
      hashInvariant h) ∧
    (∀ r : ReadCloserModel, r.failsAfter = false →
      hashInvariant (SHA256 r).hash) :=
  ⟨hashInvariant_of_parse, hashInvariant_of_unmarshal,
    hashInvariant_of_SHA256⟩

/-- Witness for the amended C5 through the parse path. -/
theorem C5_amended_invariants_witness :
    parse ("sha256:".toList ++ List.replicate 64 'a') =
      .ok ⟨"sha256".toList, List.replicate 64 'a'⟩ ∧
    hashInvariant ⟨"sha256".toList, List.replicate 64 'a'⟩ :=
  ⟨by decide,
    C5_amended_invariants.1 ("sha256:".toList ++ List.replicate 64 'a')
      ⟨"sha256".toList, List.replicate 64 'a'⟩ (by decide)⟩

end V1
